import Mathlib

/-!
Verification of the client-credentials token helper (`src/ims.js`,
`src/index.js`): credential normalization/validation, cache-key
derivation, the TTL token cache, and the `generateAccessToken`
orchestration, embedded shallowly as pure Lean functions.

Modelling conventions:
* JS string-valued object properties become `Option String` (`none` =
  absent/undefined); JS truthiness of such a value is `truthyStr`.
* The `scopes` property can carry values of several JS types; `JSScopes`
  enumerates the type variants the validation code distinguishes.
* Thrown `AuthSDKError`s become the `AuthError` inductive carried in
  `Except`; the current source (`src/index.js` CJS build) has
  `getAndValidateCredentials` throw, which `Except.error` models.
* The in-place mutation performed by `scopes.sort()` inside
  `getCacheKey` is made explicit: `scopesAfterCacheKey` is the post-state
  of the (aliased) scopes array, and `generateAccessToken` reports the
  post-state of the caller's params object in its `paramsAfter` field.
* `getCacheKey` in the source sha1-hexes a template string; we model the
  key by that hash preimage. The hex digest is a function of the
  preimage, so preimage equality entails key equality, and (under the
  standard collision-freeness assumption for the hash) preimage
  inequality entails key inequality.
* Time is not modelled: all cache reasoning is within one TTL window,
  which is what the claims quantify over.
-/

namespace AioAuth

/-- JS truthiness of an optional string property: absent (`undefined`)
and the empty string are falsy, every other string is truthy. -/
def truthyStr : Option String → Bool
  | none => false
  | some s => s ≠ ""

/-- JS `a || b` on optional string values: `a` when truthy, else `b`. -/
def jsOr (a b : Option String) : Option String :=
  if truthyStr a then a else b

/-- `Array.prototype.join(sep)` on a list of strings. -/
def jsJoin (sep : String) : List String → String
  | [] => ""
  | [x] => x
  | x :: y :: xs => x ++ sep ++ jsJoin sep (y :: xs)

/-- The JS value stored under the `scopes` property, by the type
distinctions `getAndValidateCredentials` makes: an array, a string, a
number, a non-array object, `null`, or absent. -/
inductive JSScopes where
  | absent
  | arr (xs : List String)
  | str (s : String)
  | num (n : Int)
  | objVal
  | nullVal
deriving DecidableEq

/-- JS `typeof` of a `scopes` value (arrays and `null` are `"object"`). -/
def typeofScopes : JSScopes → String
  | .absent => "undefined"
  | .arr _ => "object"
  | .str _ => "string"
  | .num _ => "number"
  | .objVal => "object"
  | .nullVal => "object"

/-- JS truthiness of a `scopes` value: `undefined`, `null`, `""` and `0`
are falsy; arrays (even empty) and other objects are truthy. -/
def truthyScopes : JSScopes → Bool
  | .absent => false
  | .arr _ => true
  | .str s => s ≠ ""
  | .num n => n ≠ 0
  | .objVal => true
  | .nullVal => false

/-- `Array.isArray` on a `scopes` value. -/
def JSScopes.isArr : JSScopes → Bool
  | .arr _ => true
  | _ => false

/-- The scopes list a `scopes` value normalizes to via
`params.scopes || []` (falsy values and, unreachably after the array
check, truthy non-arrays give `[]`). -/
def normScopes : JSScopes → List String
  | .arr xs => xs
  | _ => []

/-- The caller's raw params object (a plain JS object; the non-object
inputs rejected as `BAD_CREDENTIALS_FORMAT` are outside this type and
outside every claim). Fields are the properties
`getAndValidateCredentials` reads. -/
structure Params where
  clientId : Option String
  client_id : Option String
  clientSecret : Option String
  client_secret : Option String
  orgId : Option String
  org_id : Option String
  scopes : JSScopes
deriving DecidableEq

/-- Convenience constructor: params using only camelCase fields. -/
def mkParams (cid sec org : Option String) (scopes : JSScopes) : Params :=
  ⟨cid, none, sec, none, org, none, scopes⟩

/-- The typed `AuthSDKError`s of `src/errors.js`, with the structured
`sdkDetails` fields the claims mention. -/
inductive AuthError where
  | badCredentialsFormat (paramsType : String)
  | badScopesFormat (scopesType : String)
  | missingParameters (missing : List String) (clientId orgId : Option String)
      (scopes : List String)
  | imsTokenError (message : String)
  | genericError (message : String)
deriving DecidableEq

/-- The message template of each error code (`src/errors.js`), with the
`%s` placeholder filled from the payload. -/
def AuthError.message : AuthError → String
  | .badCredentialsFormat _ =>
      "Credentials must be either an object or a stringified object"
  | .badScopesFormat _ => "Scopes must be an array"
  | .missingParameters missing _ _ _ =>
      "Missing required parameters: " ++ jsJoin ", " missing
  | .imsTokenError m => "Error calling IMS to get access token: " ++ m
  | .genericError m => "An unexpected error occurred: " ++ m

/-- A validated credential record (`src/ims.js`). -/
structure Credentials where
  clientId : String
  clientSecret : String
  orgId : String
  scopes : List String
deriving DecidableEq

/-- The list of missing required field names, pushed in the source's
order clientId, clientSecret, orgId (`src/ims.js`,
`getAndValidateCredentials`). -/
def missingFields (p : Params) : List String :=
  (if truthyStr (jsOr p.clientId p.client_id) then [] else ["clientId"])
    ++ (if truthyStr (jsOr p.clientSecret p.client_secret) then []
        else ["clientSecret"])
    ++ (if truthyStr (jsOr p.orgId p.org_id) then [] else ["orgId"])

/-- `getAndValidateCredentials` from `src/ims.js` (current CJS build,
which throws; `Except.error` models the throw): reject a truthy
non-array `scopes`, normalize snake_case to camelCase with `||`
(camelCase wins when truthy), default scopes to `[]`, then reject when
any of the three required fields is falsy, listing all missing names. -/
def getAndValidateCredentials (p : Params) :
    Except AuthError Credentials :=
  if truthyScopes p.scopes && !p.scopes.isArr then
    .error (.badScopesFormat (typeofScopes p.scopes))
  else
    let clientId := jsOr p.clientId p.client_id
    let clientSecret := jsOr p.clientSecret p.client_secret
    let orgId := jsOr p.orgId p.org_id
    let scopes := normScopes p.scopes
    if missingFields p = [] then
      .ok ⟨clientId.getD "", clientSecret.getD "", orgId.getD "", scopes⟩
    else
      .error (.missingParameters (missingFields p) clientId orgId scopes)

/-- Lexicographic comparison of character lists by code point, the
order JS `Array.prototype.sort()` uses on (BMP) strings. -/
def charListLe : List Char → List Char → Bool
  | [], _ => true
  | _ :: _, [] => false
  | a :: as, b :: bs =>
    if a.val.toNat < b.val.toNat then true
    else if b.val.toNat < a.val.toNat then false
    else charListLe as bs

/-- The string comparison underlying the JS default sort. -/
def jsLe (a b : String) : Bool := charListLe a.data b.data

/-- `scopes.sort()`: JS default sort of an array of strings, modelled by
insertion sort under the total order `jsLe`. -/
def sortScopes (scopes : List String) : List String :=
  scopes.insertionSort fun a b => jsLe a b = true

/-- The `scopeKey` local of `getCacheKey` (`src/index.js`):
`scopes.length > 0 ? scopes.sort().join(',') : 'none'`. -/
def scopeKeyOf (scopes : List String) : String :=
  if scopes.length > 0 then jsJoin "," (sortScopes scopes) else "none"

/-- A validated credential record together with the resolved environment
(the `credAndEnv` object of `src/index.js`); also the shape of the
request that reaches `getAccessTokenByClientCredentials`. -/
structure CredAndEnv where
  clientId : String
  clientSecret : String
  orgId : String
  scopes : List String
  env : String
deriving DecidableEq

/-- `getCacheKey` from `src/index.js` (current CJS build), modelled by
the sha1 preimage
`` `${clientId}:${orgId}:${scopeKey}:${clientSecret}:${env}` ``
(see the header comment on hashing). -/
def getCacheKey (c : CredAndEnv) : String :=
  c.clientId ++ ":" ++ c.orgId ++ ":" ++ scopeKeyOf c.scopes ++ ":"
    ++ c.clientSecret ++ ":" ++ c.env

/-- The post-state of the scopes array after `getCacheKey` ran on it:
`scopes.sort()` sorts the array in place when it is non-empty. -/
def scopesAfterCacheKey (scopes : List String) : List String :=
  if scopes.length > 0 then sortScopes scopes else scopes

/-- The form-encoded POST body built by `getAccessTokenByClientCredentials`
(`src/ims.js`), as the ordered field list handed to `URLSearchParams`:
the `scope` field is appended only for non-empty scopes and joins the
array in its current order (no sorting here). -/
def imsFormBody (c : CredAndEnv) : List (String × String) :=
  [("grant_type", "client_credentials"), ("client_id", c.clientId),
    ("client_secret", c.clientSecret), ("org_id", c.orgId)]
    ++ (if c.scopes.length > 0 then [("scope", jsJoin "," c.scopes)] else [])

/-- `getImsUrl` from `src/ims.js`: stage host for `'stage'`, production
host for everything else. -/
def getImsUrl (env : String) : String :=
  if env = "stage" then "https://ims-na1-stg1.adobelogin.com"
  else "https://ims-na1.adobelogin.com"

/-- `ioRuntimeStageNamespace` from `src/index.js`: the ambient
`__OW_NAMESPACE` value is truthy and starts with `'development-'`. -/
def ioRuntimeStageNamespace (owNamespace : Option String) : Bool :=
  truthyStr owNamespace && (owNamespace.getD "").startsWith "development-"

/-- The environment resolution performed on entry to
`generateAccessToken` (`src/index.js`):
`imsEnv = imsEnv || (ioRuntimeStageNamespace() ? 'stage' : 'prod')`. -/
def resolveEnvFromArg (imsEnv : Option String) (owNamespace : Option String) :
    String :=
  if truthyStr imsEnv then imsEnv.getD ""
  else if ioRuntimeStageNamespace owNamespace then "stage" else "prod"

/-- Modelled from the spec: the shipped `generateAccessToken` wrapper
that also consults the nested environment hint (the `__ims_env` property
of the input) is not among the sources, only its tests are; spec §4.4
gives the resolution order "explicit `environmentOverride` argument,
else the nested environment hint found in input, else a
deployment-signal-based default, else `prod`". The override step and the
deployment-signal default are the ones implemented by
`resolveEnvFromArg` in `src/index.js`. -/
def resolveImsEnv (environmentOverride envHint owNamespace : Option String) :
    String :=
  if truthyStr environmentOverride then environmentOverride.getD ""
  else if truthyStr envHint then envHint.getD ""
  else if ioRuntimeStageNamespace owNamespace then "stage" else "prod"

deriving instance DecidableEq for Except

/-- A token response, opaque to the library. -/
abbrev Token := String

/-- The process-wide TTL cache within one TTL window: an association
list from cache key to token, newest entry first. -/
abbrev TokenCache := List (String × Token)

/-- Everything observable about one `generateAccessToken` call: its
result, the cache afterwards, the network requests it issued (none on
validation failure or cache hit, exactly one otherwise), and the
post-state of the caller's params object (whose scopes array, when it is
an array, is aliased by the credential record and sorted in place by
`getCacheKey`). -/
structure GenOutcome where
  result : Except AuthError Token
  cache : TokenCache
  requests : List CredAndEnv
  paramsAfter : Params
deriving DecidableEq

/-- `generateAccessToken` from `src/index.js` (current CJS build):
resolve the environment, validate (rethrowing validation errors before
any network activity), derive the cache key (sorting the aliased scopes
array in place), return a cached token when present, otherwise fetch —
`fetch` abstracts `getAccessTokenByClientCredentials`'s single network
round trip, returning the parsed token or the typed error it throws —
and store the token only on success. -/
def generateAccessToken (fetch : CredAndEnv → Except AuthError Token)
    (params : Params) (imsEnv owNamespace : Option String)
    (cache : TokenCache) : GenOutcome :=
  let env := resolveEnvFromArg imsEnv owNamespace
  match getAndValidateCredentials params with
  | .error e => ⟨.error e, cache, [], params⟩
  | .ok creds =>
    let credAndEnv : CredAndEnv :=
      ⟨creds.clientId, creds.clientSecret, creds.orgId, creds.scopes, env⟩
    let key := getCacheKey credAndEnv
    let sorted := scopesAfterCacheKey creds.scopes
    let reqAfterKey : CredAndEnv :=
      ⟨creds.clientId, creds.clientSecret, creds.orgId, sorted, env⟩
    let paramsAfter :=
      if params.scopes.isArr then { params with scopes := .arr sorted }
      else params
    match List.lookup key cache with
    | some t => ⟨.ok t, cache, [], paramsAfter⟩
    | none =>
      match fetch reqAfterKey with
      | .error e => ⟨.error e, cache, [reqAfterKey], paramsAfter⟩
      | .ok t => ⟨.ok t, (key, t) :: cache, [reqAfterKey], paramsAfter⟩

/-! Helper lemmas: `jsLe` is a total order, sorting is
permutation-invariant, and facts about the cache-key preimage. -/

/-- `charListLe` is total. -/
theorem charListLe_total : ∀ as bs : List Char,
    charListLe as bs = true ∨ charListLe bs as = true
  | [], _ => Or.inl rfl
  | _ :: _, [] => Or.inr rfl
  | a :: as, b :: bs => by
    by_cases h1 : a.val.toNat < b.val.toNat
    · exact Or.inl (by simp [charListLe, h1])
    · by_cases h2 : b.val.toNat < a.val.toNat
      · exact Or.inr (by simp [charListLe, h1, h2])
      · rcases charListLe_total as bs with h | h
        · exact Or.inl (by simp [charListLe, h1, h2, h])
        · exact Or.inr (by simp [charListLe, h1, h2, h])

/-- `charListLe` is antisymmetric. -/
theorem charListLe_antisymm : ∀ as bs : List Char,
    charListLe as bs = true → charListLe bs as = true → as = bs
  | [], [], _, _ => rfl
  | [], _ :: _, _, h2 => by simp [charListLe] at h2
  | _ :: _, [], h1, _ => by simp [charListLe] at h1
  | a :: as, b :: bs, h1, h2 => by
    by_cases hab : a.val.toNat < b.val.toNat
    · simp [charListLe, hab, Nat.lt_asymm hab] at h2
    · by_cases hba : b.val.toNat < a.val.toNat
      · simp [charListLe, hab, hba] at h1
      · have hv : a = b :=
          Char.ext (UInt32.ext
            (Nat.le_antisymm (Nat.not_lt.mp hba) (Nat.not_lt.mp hab)))
        simp [charListLe, hab, hba] at h1 h2
        rw [hv, charListLe_antisymm as bs h1 h2]

/-- `charListLe` is transitive. -/
theorem charListLe_trans : ∀ as bs cs : List Char,
    charListLe as bs = true → charListLe bs cs = true →
      charListLe as cs = true
  | [], _, _, _, _ => rfl
  | _ :: _, [], _, h1, _ => by simp [charListLe] at h1
  | _ :: _, _ :: _, [], _, h2 => by simp [charListLe] at h2
  | a :: as, b :: bs, c :: cs, h1, h2 => by
    by_cases hab : a.val.toNat < b.val.toNat
    · by_cases hbc : b.val.toNat < c.val.toNat
      · simp [charListLe, Nat.lt_trans hab hbc]
      · by_cases hcb : c.val.toNat < b.val.toNat
        · simp [charListLe, hbc, hcb] at h2
        · have hbc' : b.val.toNat = c.val.toNat :=
            Nat.le_antisymm (Nat.not_lt.mp hcb) (Nat.not_lt.mp hbc)
          simp [charListLe, hbc' ▸ hab]
    · by_cases hba : b.val.toNat < a.val.toNat
      · simp [charListLe, hab, hba] at h1
      · have hab' : a.val.toNat = b.val.toNat :=
          Nat.le_antisymm (Nat.not_lt.mp hba) (Nat.not_lt.mp hab)
        by_cases hbc : b.val.toNat < c.val.toNat
        · simp [charListLe, hab' ▸ hbc]
        · by_cases hcb : c.val.toNat < b.val.toNat
          · simp [charListLe, hbc, hcb] at h2
          · simp [charListLe, hab, hba] at h1
            simp [charListLe, hbc, hcb] at h2
            have hac1 : ¬ a.val.toNat < c.val.toNat := by omega
            have hac2 : ¬ c.val.toNat < a.val.toNat := by omega
            simp [charListLe, hac1, hac2, charListLe_trans as bs cs h1 h2]

instance : IsTotal String fun a b => jsLe a b = true :=
  ⟨fun a b => charListLe_total a.data b.data⟩

instance : IsTrans String fun a b => jsLe a b = true :=
  ⟨fun a b c => charListLe_trans a.data b.data c.data⟩

instance : IsAntisymm String fun a b => jsLe a b = true :=
  ⟨fun a b h1 h2 => String.ext (charListLe_antisymm a.data b.data h1 h2)⟩

/-- Sorting is permutation-invariant: permuted scope lists sort to the
same list (the comparison `jsLe` is total, transitive and
antisymmetric). -/
theorem sortScopes_eq_of_perm {s1 s2 : List String} (h : s1.Perm s2) :
    sortScopes s1 = sortScopes s2 :=
  List.eq_of_perm_of_sorted
    ((List.perm_insertionSort _ s1).trans
      (h.trans (List.perm_insertionSort _ s2).symm))
    (List.sorted_insertionSort _ s1) (List.sorted_insertionSort _ s2)

/-- The normalized scope string is permutation-invariant. -/
theorem scopeKeyOf_eq_of_perm {s1 s2 : List String} (h : s1.Perm s2) :
    scopeKeyOf s1 = scopeKeyOf s2 := by
  unfold scopeKeyOf
  rw [h.length_eq, sortScopes_eq_of_perm h]

/-- Cancel the fixed fields of the cache-key preimage: two keys built
from the same clientId, orgId, clientSecret and env agree only if their
scope-key segments agree. -/
theorem string_append_middle_inj {cid org sec env x y : String}
    (h : cid ++ ":" ++ org ++ ":" ++ x ++ ":" ++ sec ++ ":" ++ env
        = cid ++ ":" ++ org ++ ":" ++ y ++ ":" ++ sec ++ ":" ++ env) :
    x = y := by
  have hd := congrArg String.data h
  simp only [String.data_append, List.append_assoc] at hd
  have h1 := List.append_cancel_left hd
  have h2 := List.append_cancel_left h1
  have h3 := List.append_cancel_left h2
  have h4 := List.append_cancel_left h3
  exact String.ext (List.append_cancel_right h4)

/-- A comma-join of a non-empty string list other than `["none"]` never
equals the sentinel `"none"`: a singleton joins to its element, and a
longer join contains a comma while `"none"` does not. -/
theorem jsJoin_comma_ne_none :
    ∀ l : List String, l ≠ [] → l ≠ ["none"] → jsJoin "," l ≠ "none"
  | [], hne, _ => absurd rfl hne
  | [x], _, hnone => by
      have hx : x ≠ "none" := fun h => hnone (by rw [h])
      simpa [jsJoin] using hx
  | x :: y :: t, _, _ => by
      intro hEq
      have hmem : ',' ∈ (jsJoin "," (x :: y :: t)).data := by
        show ',' ∈ (x ++ "," ++ jsJoin "," (y :: t)).data
        simp only [String.data_append, List.mem_append]
        exact Or.inl (Or.inr (by decide))
      rw [hEq] at hmem
      exact absurd hmem (by decide)

/-- The scope-key segment of a non-empty scope list other than
`["none"]` differs from the empty list's sentinel. -/
theorem scopeKeyOf_ne_none {scopes : List String} (hne : scopes ≠ [])
    (hnone : scopes ≠ ["none"]) : scopeKeyOf scopes ≠ "none" := by
  have hlen : 0 < scopes.length := List.length_pos.mpr hne
  unfold scopeKeyOf
  rw [if_pos hlen]
  have hperm : (sortScopes scopes).Perm scopes := List.perm_insertionSort _ _
  refine jsJoin_comma_ne_none _ ?_ ?_
  · intro h
    rw [h] at hperm
    exact hne hperm.symm.eq_nil
  · intro h
    rw [h] at hperm
    exact hnone (List.perm_singleton.mp hperm.symm)

/-- Valid camelCase params with an array of scopes validate to the
expected credential record. -/
theorem validate_mkParams_arr {cid sec org : String} {s : List String}
    (hcid : cid ≠ "") (hsec : sec ≠ "") (horg : org ≠ "") :
    getAndValidateCredentials (mkParams (some cid) (some sec) (some org)
        (.arr s))
      = .ok ⟨cid, sec, org, s⟩ := by
  simp [getAndValidateCredentials, mkParams, truthyScopes, JSScopes.isArr,
    missingFields, jsOr, truthyStr, normScopes, hcid, hsec, horg]

/-- C2: cache-key derivation is order-independent in the scopes: for
permuted scope lists and identical clientId, orgId (and clientSecret)
and environment, `getCacheKey` returns the same key; consequently, after
a successful call, a second `generateAccessToken` call with the permuted
scopes and the same credentials within the TTL window hits the cache —
it issues no network request and returns the cached token. -/
theorem getCacheKey_perm_invariant_cache_hit
    (fetch : CredAndEnv → Except AuthError Token)
    (cid sec org : String) (imsEnv owNamespace : Option String)
    (s1 s2 : List String) (cache : TokenCache) (tok : Token)
    (hperm : s1.Perm s2)
    (hcid : cid ≠ "") (hsec : sec ≠ "") (horg : org ≠ "")
    (hmiss : List.lookup
      (getCacheKey ⟨cid, sec, org, s1, resolveEnvFromArg imsEnv owNamespace⟩)
      cache = none)
    (hfetch : fetch ⟨cid, sec, org, scopesAfterCacheKey s1,
      resolveEnvFromArg imsEnv owNamespace⟩ = .ok tok) :
    (∀ env : String,
      getCacheKey ⟨cid, sec, org, s1, env⟩
        = getCacheKey ⟨cid, sec, org, s2, env⟩)
    ∧ (generateAccessToken fetch
        (mkParams (some cid) (some sec) (some org) (.arr s2)) imsEnv
        owNamespace
        (generateAccessToken fetch
          (mkParams (some cid) (some sec) (some org) (.arr s1)) imsEnv
          owNamespace cache).cache).requests = []
    ∧ (generateAccessToken fetch
        (mkParams (some cid) (some sec) (some org) (.arr s2)) imsEnv
        owNamespace
        (generateAccessToken fetch
          (mkParams (some cid) (some sec) (some org) (.arr s1)) imsEnv
          owNamespace cache).cache).result = .ok tok := by
  have hkey : ∀ env : String,
      getCacheKey ⟨cid, sec, org, s1, env⟩
        = getCacheKey ⟨cid, sec, org, s2, env⟩ := by
    intro env
    simp [getCacheKey, scopeKeyOf_eq_of_perm hperm]
  refine ⟨hkey, ?_⟩
  have h1 : generateAccessToken fetch
      (mkParams (some cid) (some sec) (some org) (.arr s1)) imsEnv
      owNamespace cache
      = ⟨.ok tok,
          (getCacheKey ⟨cid, sec, org, s1,
            resolveEnvFromArg imsEnv owNamespace⟩, tok) :: cache,
          [⟨cid, sec, org, scopesAfterCacheKey s1,
            resolveEnvFromArg imsEnv owNamespace⟩],
          ⟨some cid, none, some sec, none, some org, none,
            .arr (scopesAfterCacheKey s1)⟩⟩ := by
    simp only [generateAccessToken, validate_mkParams_arr hcid hsec horg]
    simp [hmiss, hfetch, mkParams, JSScopes.isArr]
  rw [h1]
  have h2 : getCacheKey ⟨cid, sec, org, s2,
      resolveEnvFromArg imsEnv owNamespace⟩
      = getCacheKey ⟨cid, sec, org, s1,
        resolveEnvFromArg imsEnv owNamespace⟩ :=
    (hkey _).symm
  constructor <;>
  · simp only [generateAccessToken, validate_mkParams_arr hcid hsec horg, h2]
    simp [List.lookup, mkParams, JSScopes.isArr]

/-- Witness for C2 at the concrete permuted scope lists `['b','a']` and
`['a','b']`. -/
theorem getCacheKey_perm_invariant_cache_hit_witness :
    (["b", "a"] : List String).Perm ["a", "b"]
    ∧ ((∀ env : String,
          getCacheKey ⟨"c", "s", "o", ["b", "a"], env⟩
            = getCacheKey ⟨"c", "s", "o", ["a", "b"], env⟩)
      ∧ (generateAccessToken (fun _ => Except.ok "tok")
          (mkParams (some "c") (some "s") (some "o") (.arr ["a", "b"]))
          (some "prod") none
          (generateAccessToken (fun _ => Except.ok "tok")
            (mkParams (some "c") (some "s") (some "o") (.arr ["b", "a"]))
            (some "prod") none []).cache).requests = []
      ∧ (generateAccessToken (fun _ => Except.ok "tok")
          (mkParams (some "c") (some "s") (some "o") (.arr ["a", "b"]))
          (some "prod") none
          (generateAccessToken (fun _ => Except.ok "tok")
            (mkParams (some "c") (some "s") (some "o") (.arr ["b", "a"]))
            (some "prod") none []).cache).result = .ok "tok") :=
  ⟨by decide,
    getCacheKey_perm_invariant_cache_hit (fun _ => Except.ok "tok") "c" "s"
      "o" (some "prod") none ["b", "a"] ["a", "b"] [] "tok" (by decide)
      (by decide) (by decide) (by decide) rfl rfl⟩

/-- C1: when the token fetch fails (the provider returns a non-success
status or the transport throws — both surface as a typed error from the
fetch), `generateAccessToken` rejects with that error and stores nothing:
the cache is unchanged, the failing call issued one network request, and
an immediately repeated call with the same credentials and environment
issues another network request. -/
theorem generateAccessToken_failed_fetch_not_cached
    (fetch : CredAndEnv → Except AuthError Token) (params : Params)
    (imsEnv owNamespace : Option String) (cache : TokenCache)
    (creds : Credentials) (e : AuthError)
    (hval : getAndValidateCredentials params = .ok creds)
    (hmiss : List.lookup
      (getCacheKey ⟨creds.clientId, creds.clientSecret, creds.orgId,
        creds.scopes, resolveEnvFromArg imsEnv owNamespace⟩) cache = none)
    (hfail : fetch ⟨creds.clientId, creds.clientSecret, creds.orgId,
      scopesAfterCacheKey creds.scopes,
      resolveEnvFromArg imsEnv owNamespace⟩ = .error e) :
    (generateAccessToken fetch params imsEnv owNamespace cache).result
        = .error e
    ∧ (generateAccessToken fetch params imsEnv owNamespace cache).cache
        = cache
    ∧ (generateAccessToken fetch params imsEnv owNamespace
        cache).requests.length = 1
    ∧ (generateAccessToken fetch params imsEnv owNamespace
        (generateAccessToken fetch params imsEnv owNamespace
          cache).cache).requests.length = 1 := by
  have h1 : generateAccessToken fetch params imsEnv owNamespace cache
      = ⟨.error e, cache,
          [⟨creds.clientId, creds.clientSecret, creds.orgId,
            scopesAfterCacheKey creds.scopes,
            resolveEnvFromArg imsEnv owNamespace⟩],
          if params.scopes.isArr then
            { params with scopes := .arr (scopesAfterCacheKey creds.scopes) }
          else params⟩ := by
    simp only [generateAccessToken, hval, hmiss, hfail]
  refine ⟨?_, ?_, ?_, ?_⟩ <;> simp [h1]

/-- Witness for C1 at a concrete failing transport. -/
theorem generateAccessToken_failed_fetch_witness :
    getAndValidateCredentials
        (mkParams (some "c") (some "s") (some "o") (.arr ["openid"]))
      = .ok ⟨"c", "s", "o", ["openid"]⟩
    ∧ ((generateAccessToken
          (fun _ => Except.error (.genericError "Network connection failed"))
          (mkParams (some "c") (some "s") (some "o") (.arr ["openid"]))
          (some "prod") none []).result
        = .error (.genericError "Network connection failed")
      ∧ (generateAccessToken
          (fun _ => Except.error (.genericError "Network connection failed"))
          (mkParams (some "c") (some "s") (some "o") (.arr ["openid"]))
          (some "prod") none []).cache = []
      ∧ (generateAccessToken
          (fun _ => Except.error (.genericError "Network connection failed"))
          (mkParams (some "c") (some "s") (some "o") (.arr ["openid"]))
          (some "prod") none []).requests.length = 1
      ∧ (generateAccessToken
          (fun _ => Except.error (.genericError "Network connection failed"))
          (mkParams (some "c") (some "s") (some "o") (.arr ["openid"]))
          (some "prod") none
          (generateAccessToken
            (fun _ => Except.error (.genericError "Network connection failed"))
            (mkParams (some "c") (some "s") (some "o") (.arr ["openid"]))
            (some "prod") none []).cache).requests.length = 1) :=
  ⟨validate_mkParams_arr (by decide) (by decide) (by decide),
    generateAccessToken_failed_fetch_not_cached
      (fun _ => Except.error (.genericError "Network connection failed"))
      (mkParams (some "c") (some "s") (some "o") (.arr ["openid"]))
      (some "prod") none [] ⟨"c", "s", "o", ["openid"]⟩
      (.genericError "Network connection failed")
      (validate_mkParams_arr (by decide) (by decide) (by decide)) rfl rfl⟩

/-- C10: cache-key derivation is not injective in the scope list: the
distinct scope lists `['a,b']` and `['a','b']` have identical
comma-joins, so for any fixed clientId, orgId, clientSecret and
environment they produce the same cache key and share one cache entry. -/
theorem getCacheKey_not_injective_in_scopes (cid sec org env : String) :
    getCacheKey ⟨cid, sec, org, ["a,b"], env⟩
        = getCacheKey ⟨cid, sec, org, ["a", "b"], env⟩
      ∧ (["a,b"] : List String) ≠ ["a", "b"] := by
  refine ⟨?_, by decide⟩
  have h : scopeKeyOf ["a,b"] = scopeKeyOf ["a", "b"] := by decide
  simp [getCacheKey, h]

/-- C3 counterexample: the claim fails for the non-empty scope list
`['none']`, whose sorted comma-join is the literal sentinel token, so
its cache key coincides with the empty scope list's key. -/
theorem getCacheKey_none_sentinel_collision :
    getCacheKey ⟨"c", "s", "o", ["none"], "prod"⟩
        = getCacheKey ⟨"c", "s", "o", [], "prod"⟩
      ∧ (["none"] : List String) ≠ [] :=
  ⟨by decide, by decide⟩

/-- C3 amended: for every non-empty scopes array other than the
singleton `['none']` (whose sorted comma-join collides with the
sentinel), and fixed clientId, orgId, clientSecret and environment,
`getCacheKey` differs from the empty array's key, the empty case being
encoded by the sentinel token `none`. -/
theorem getCacheKey_empty_scopes_distinct_amended
    (cid sec org env : String) (scopes : List String)
    (hne : scopes ≠ []) (hnone : scopes ≠ ["none"]) :
    getCacheKey ⟨cid, sec, org, scopes, env⟩
      ≠ getCacheKey ⟨cid, sec, org, [], env⟩ := by
  intro h
  simp only [getCacheKey] at h
  exact scopeKeyOf_ne_none hne hnone (string_append_middle_inj h)

/-- Witness for the amended C3 at the concrete scope list `['a']`. -/
theorem getCacheKey_empty_scopes_distinct_witness :
    ((["a"] : List String) ≠ [] ∧ (["a"] : List String) ≠ ["none"])
      ∧ getCacheKey ⟨"c", "s", "o", ["a"], "prod"⟩
        ≠ getCacheKey ⟨"c", "s", "o", [], "prod"⟩ :=
  ⟨⟨by decide, by decide⟩,
    getCacheKey_empty_scopes_distinct_amended "c" "s" "o" "prod" ["a"]
      (by decide) (by decide)⟩

/-- C4 counterexample: reached through `generateAccessToken`, the wire
`scope` field is not the caller-given order: with scopes `['b','a']` the
single issued request's form body carries `scope=a,b`, because
`getCacheKey`'s `scopes.sort()` sorted the aliased array in place before
the fetch ran, whereas the caller-order join would be `b,a`. -/
theorem wire_scope_sorted_through_generateAccessToken :
    ((generateAccessToken (fun _ => Except.ok "tok")
        (mkParams (some "c") (some "s") (some "o") (.arr ["b", "a"]))
        (some "prod") none []).requests.map imsFormBody)
      = [[("grant_type", "client_credentials"), ("client_id", "c"),
          ("client_secret", "s"), ("org_id", "o"), ("scope", "a,b")]]
    ∧ jsJoin "," ["b", "a"] ≠ "a,b" :=
  ⟨by decide, by decide⟩

/-- C4 amended: for every non-empty scopes list, a direct
`getAccessTokenByClientCredentials` call's form body carries `scope` as
the comma-join of the list in the order given (sorting is reserved for
cache-key derivation); but when the fetch is reached through
`generateAccessToken`, the cache-key derivation has already sorted the
aliased scopes array in place, so the one issued request carries the
sorted list and its `scope` field is the comma-join of the sorted
scopes. -/
theorem imsFormBody_scope_order_amended
    (c : CredAndEnv) (hneC : c.scopes ≠ [])
    (fetch : CredAndEnv → Except AuthError Token) (params : Params)
    (imsEnv owNamespace : Option String) (cache : TokenCache)
    (creds : Credentials)
    (hval : getAndValidateCredentials params = .ok creds)
    (hneS : creds.scopes ≠ [])
    (hmiss : List.lookup
      (getCacheKey ⟨creds.clientId, creds.clientSecret, creds.orgId,
        creds.scopes, resolveEnvFromArg imsEnv owNamespace⟩) cache = none) :
    ("scope", jsJoin "," c.scopes) ∈ imsFormBody c
    ∧ (generateAccessToken fetch params imsEnv owNamespace
        cache).requests.map imsFormBody
      = [imsFormBody ⟨creds.clientId, creds.clientSecret, creds.orgId,
          sortScopes creds.scopes, resolveEnvFromArg imsEnv owNamespace⟩]
    ∧ ("scope", jsJoin "," (sortScopes creds.scopes))
        ∈ imsFormBody ⟨creds.clientId, creds.clientSecret, creds.orgId,
            sortScopes creds.scopes, resolveEnvFromArg imsEnv owNamespace⟩ := by
  have hlenC : 0 < c.scopes.length := List.length_pos.mpr hneC
  have hperm : (sortScopes creds.scopes).Perm creds.scopes :=
    List.perm_insertionSort _ _
  have hlenS : 0 < (sortScopes creds.scopes).length := by
    rw [hperm.length_eq]
    exact List.length_pos.mpr hneS
  have hsorted : scopesAfterCacheKey creds.scopes = sortScopes creds.scopes := by
    simp [scopesAfterCacheKey, List.length_pos.mpr hneS]
  refine ⟨?_, ?_, ?_⟩
  · simp [imsFormBody, hlenC]
  · rw [← hsorted]
    cases hf : fetch ⟨creds.clientId, creds.clientSecret, creds.orgId,
        scopesAfterCacheKey creds.scopes,
        resolveEnvFromArg imsEnv owNamespace⟩ <;>
      simp [generateAccessToken, hval, hmiss, hf]
  · simp [imsFormBody, hlenS]

/-- Witness for the amended C4 at scopes `['b','a']`. -/
theorem imsFormBody_scope_order_witness :
    ((⟨"c", "s", "o", ["b", "a"], "prod"⟩ : CredAndEnv).scopes ≠ []
      ∧ getAndValidateCredentials
          (mkParams (some "c") (some "s") (some "o") (.arr ["b", "a"]))
        = .ok ⟨"c", "s", "o", ["b", "a"]⟩)
    ∧ (("scope", jsJoin "," ["b", "a"])
        ∈ imsFormBody ⟨"c", "s", "o", ["b", "a"], "prod"⟩
      ∧ (generateAccessToken (fun _ => Except.ok "tok")
          (mkParams (some "c") (some "s") (some "o") (.arr ["b", "a"]))
          (some "prod") none []).requests.map imsFormBody
        = [imsFormBody ⟨"c", "s", "o", sortScopes ["b", "a"], "prod"⟩]
      ∧ ("scope", jsJoin "," (sortScopes ["b", "a"]))
          ∈ imsFormBody ⟨"c", "s", "o", sortScopes ["b", "a"], "prod"⟩) :=
  ⟨⟨by decide, validate_mkParams_arr (by decide) (by decide) (by decide)⟩,
    imsFormBody_scope_order_amended ⟨"c", "s", "o", ["b", "a"], "prod"⟩
      (by decide) (fun _ => Except.ok "tok")
      (mkParams (some "c") (some "s") (some "o") (.arr ["b", "a"]))
      (some "prod") none [] ⟨"c", "s", "o", ["b", "a"]⟩
      (validate_mkParams_arr (by decide) (by decide) (by decide))
      (by decide) rfl⟩

/-- C5: for every params object whose scopes precheck passes, when any
subset of clientId, clientSecret, orgId is missing after normalization,
validation produces a single `MissingParameters` error whose missing-name
list contains exactly the missing fields — each of the three names is
listed precisely when its field is falsy after normalization, the list is
a sublist of `[clientId, clientSecret, orgId]` (so the names appear in
that order and no other name appears), and the message joins that list
onto the `Missing required parameters:` template. -/
theorem missingParameters_lists_exactly_missing (p : Params)
    (hscOK : (truthyScopes p.scopes && !p.scopes.isArr) = false)
    (hne : missingFields p ≠ []) :
    getAndValidateCredentials p
      = .error (.missingParameters (missingFields p)
          (jsOr p.clientId p.client_id) (jsOr p.orgId p.org_id)
          (normScopes p.scopes))
    ∧ ("clientId" ∈ missingFields p
        ↔ truthyStr (jsOr p.clientId p.client_id) = false)
    ∧ ("clientSecret" ∈ missingFields p
        ↔ truthyStr (jsOr p.clientSecret p.client_secret) = false)
    ∧ ("orgId" ∈ missingFields p
        ↔ truthyStr (jsOr p.orgId p.org_id) = false)
    ∧ List.Sublist (missingFields p) ["clientId", "clientSecret", "orgId"]
    ∧ (AuthError.missingParameters (missingFields p)
        (jsOr p.clientId p.client_id) (jsOr p.orgId p.org_id)
        (normScopes p.scopes)).message
      = "Missing required parameters: " ++ jsJoin ", " (missingFields p) := by
  refine ⟨?_, ?_, ?_, ?_, ?_, rfl⟩
  · simp only [getAndValidateCredentials, hscOK, Bool.false_eq_true,
      if_false, if_neg hne]
  all_goals
    by_cases h1 : truthyStr (jsOr p.clientId p.client_id) <;>
    by_cases h2 : truthyStr (jsOr p.clientSecret p.client_secret) <;>
    by_cases h3 : truthyStr (jsOr p.orgId p.org_id) <;>
    simp_all [missingFields]

/-- Witness for C5: clientId and orgId missing, clientSecret present. -/
theorem missingParameters_witness :
    ((truthyScopes JSScopes.absent && !JSScopes.absent.isArr) = false
      ∧ missingFields (mkParams none (some "s") none .absent) ≠ [])
    ∧ (getAndValidateCredentials (mkParams none (some "s") none .absent)
        = .error (.missingParameters
            (missingFields (mkParams none (some "s") none .absent))
            (jsOr (mkParams none (some "s") none .absent).clientId
              (mkParams none (some "s") none .absent).client_id)
            (jsOr (mkParams none (some "s") none .absent).orgId
              (mkParams none (some "s") none .absent).org_id)
            (normScopes (mkParams none (some "s") none .absent).scopes))
      ∧ ("clientId" ∈ missingFields (mkParams none (some "s") none .absent)
          ↔ truthyStr (jsOr (mkParams none (some "s") none .absent).clientId
              (mkParams none (some "s") none .absent).client_id) = false)
      ∧ ("clientSecret" ∈ missingFields (mkParams none (some "s") none .absent)
          ↔ truthyStr (jsOr (mkParams none (some "s") none .absent).clientSecret
              (mkParams none (some "s") none .absent).client_secret) = false)
      ∧ ("orgId" ∈ missingFields (mkParams none (some "s") none .absent)
          ↔ truthyStr (jsOr (mkParams none (some "s") none .absent).orgId
              (mkParams none (some "s") none .absent).org_id) = false)
      ∧ List.Sublist (missingFields (mkParams none (some "s") none .absent))
          ["clientId", "clientSecret", "orgId"]
      ∧ (AuthError.missingParameters
          (missingFields (mkParams none (some "s") none .absent))
          (jsOr (mkParams none (some "s") none .absent).clientId
            (mkParams none (some "s") none .absent).client_id)
          (jsOr (mkParams none (some "s") none .absent).orgId
            (mkParams none (some "s") none .absent).org_id)
          (normScopes (mkParams none (some "s") none .absent).scopes)).message
        = "Missing required parameters: "
            ++ jsJoin ", " (missingFields (mkParams none (some "s") none .absent))) :=
  ⟨⟨by decide, by decide⟩,
    missingParameters_lists_exactly_missing
      (mkParams none (some "s") none .absent) (by decide) (by decide)⟩

/-- C6 counterexample: the claim fails when the camelCase value is the
empty string: with `clientId: ''` and `client_id: 'snake'` both present,
JS `||` finds the camelCase value falsy and the normalized record takes
the snake_case value `'snake'`, not the camelCase value `''`. -/
theorem camelCase_empty_loses_to_snake :
    getAndValidateCredentials
        ⟨some "", some "snake", some "sec", none, some "org", none, .absent⟩
      = .ok ⟨"snake", "sec", "org", []⟩
    ∧ ("snake" : String) ≠ "" :=
  ⟨by decide, by decide⟩

/-- C6 amended: whenever validation succeeds and a camelCase field is
truthy (present and non-empty), the normalized record takes the
camelCase value regardless of the snake_case spelling; a falsy
(empty-string) camelCase value instead falls back to snake_case. -/
theorem camelCase_truthy_wins_amended (p : Params) (creds : Credentials)
    (hval : getAndValidateCredentials p = .ok creds) :
    (truthyStr p.clientId = true → some creds.clientId = p.clientId)
    ∧ (truthyStr p.clientSecret = true → some creds.clientSecret = p.clientSecret)
    ∧ (truthyStr p.orgId = true → some creds.orgId = p.orgId) := by
  simp only [getAndValidateCredentials] at hval
  by_cases hb : (truthyScopes p.scopes && !p.scopes.isArr) = true
  · rw [if_pos hb] at hval
    exact absurd hval (by simp)
  · rw [if_neg hb] at hval
    by_cases hm : missingFields p = []
    · rw [if_pos hm] at hval
      have hc := Except.ok.inj hval
      refine ⟨?_, ?_, ?_⟩
      · intro h1
        cases hcid : p.clientId with
        | none => rw [hcid] at h1; exact absurd h1 (by simp [truthyStr])
        | some s =>
          have ht : truthyStr (some s) = true := hcid ▸ h1
          rw [← hc]
          simp [jsOr, ht, hcid]
      · intro h1
        cases hsec : p.clientSecret with
        | none => rw [hsec] at h1; exact absurd h1 (by simp [truthyStr])
        | some s =>
          have ht : truthyStr (some s) = true := hsec ▸ h1
          rw [← hc]
          simp [jsOr, ht, hsec]
      · intro h1
        cases horg : p.orgId with
        | none => rw [horg] at h1; exact absurd h1 (by simp [truthyStr])
        | some s =>
          have ht : truthyStr (some s) = true := horg ▸ h1
          rw [← hc]
          simp [jsOr, ht, horg]
    · rw [if_neg hm] at hval
      exact absurd hval (by simp)

/-- Witness for the amended C6: camelCase and snake_case both present,
camelCase truthy, camelCase wins. -/
theorem camelCase_truthy_wins_witness :
    getAndValidateCredentials
        ⟨some "camel", some "snake", some "sec", none, some "org", none,
          .absent⟩
      = .ok ⟨"camel", "sec", "org", []⟩
    ∧ (truthyStr (some "camel") = true → (some "camel" : Option String) = some "camel") := by
  refine ⟨by decide, ?_⟩
  have h := camelCase_truthy_wins_amended
    ⟨some "camel", some "snake", some "sec", none, some "org", none, .absent⟩
    ⟨"camel", "sec", "org", []⟩ (by decide)
  exact h.1

/-- C7 counterexample: the claim fails for the falsy string `''`: with
`scopes: ''` (a string, `typeof` `'string'`) and full credentials,
validation does not fail with `BadScopesFormat` — the falsy value slips
past the truthiness guard and normalizes to the empty scope list. -/
theorem falsy_string_scopes_accepted :
    getAndValidateCredentials
        (mkParams (some "c") (some "s") (some "o") (.str ""))
      = .ok ⟨"c", "s", "o", []⟩
    ∧ typeofScopes (.str "") = "string" :=
  ⟨by decide, rfl⟩

/-- C7 amended: a scopes property that is present with a truthy
non-array value (non-empty string, non-zero number, non-array object)
fails with `BadScopesFormat` whose detail carries the observed `typeof`;
falsy scopes values slip past the guard and are treated like absent
scopes; absent scopes normalize to the empty array. -/
theorem badScopesFormat_truthy_nonarray_amended :
    (∀ p : Params, truthyScopes p.scopes = true → p.scopes.isArr = false →
      getAndValidateCredentials p
        = .error (.badScopesFormat (typeofScopes p.scopes)))
    ∧ (∀ (p : Params) (creds : Credentials), p.scopes = .absent →
        getAndValidateCredentials p = .ok creds → creds.scopes = []) := by
  constructor
  · intro p h1 h2
    simp [getAndValidateCredentials, h1, h2]
  · intro p creds habs hval
    simp only [getAndValidateCredentials, habs] at hval
    simp only [truthyScopes, Bool.false_and, Bool.false_eq_true, if_false] at hval
    by_cases hm : missingFields p = []
    · rw [if_pos hm] at hval
      have hc := Except.ok.inj hval
      rw [← hc]
      simp [normScopes]
    · rw [if_neg hm] at hval
      exact absurd hval (by simp)

/-- Witness for the amended C7: a truthy string `'openid'` is rejected
with the observed type `'string'`; absent scopes normalize to `[]`. -/
theorem badScopesFormat_witness :
    (truthyScopes (.str "openid") = true ∧ JSScopes.isArr (.str "openid") = false)
    ∧ getAndValidateCredentials
        (mkParams (some "c") (some "s") (some "o") (.str "openid"))
      = .error (.badScopesFormat "string")
    ∧ (⟨"c", "s", "o", []⟩ : Credentials).scopes = [] :=
  ⟨⟨by decide, rfl⟩,
    badScopesFormat_truthy_nonarray_amended.1
      (mkParams (some "c") (some "s") (some "o") (.str "openid"))
      (by decide) rfl,
    badScopesFormat_truthy_nonarray_amended.2
      (mkParams (some "c") (some "s") (some "o") .absent)
      ⟨"c", "s", "o", []⟩ rfl (by decide)⟩

/-- C8: environment resolution follows the priority order: the explicit
override argument when truthy; else the nested environment hint from the
input when truthy; else `stage` when the ambient deployment-namespace
variable begins with the `development-` prefix; else `prod`. With no
hint, this coincides with the resolution `generateAccessToken` performs
on its argument (`resolveEnvFromArg` in `src/index.js`). -/
theorem resolveImsEnv_priority_order (o h ns : Option String) :
    (truthyStr o = true → resolveImsEnv o h ns = o.getD "")
    ∧ (truthyStr o = false → truthyStr h = true →
        resolveImsEnv o h ns = h.getD "")
    ∧ (truthyStr o = false → truthyStr h = false →
        ioRuntimeStageNamespace ns = true → resolveImsEnv o h ns = "stage")
    ∧ (truthyStr o = false → truthyStr h = false →
        ioRuntimeStageNamespace ns = false → resolveImsEnv o h ns = "prod")
    ∧ resolveImsEnv o none ns = resolveEnvFromArg o ns := by
  refine ⟨?_, ?_, ?_, ?_, ?_⟩
  · intro h1
    simp [resolveImsEnv, h1]
  · intro h1 h2
    simp [resolveImsEnv, h1, h2]
  · intro h1 h2 h3
    simp [resolveImsEnv, h1, h2, h3]
  · intro h1 h2 h3
    simp [resolveImsEnv, h1, h2, h3]
  · simp [resolveImsEnv, resolveEnvFromArg, truthyStr]

/-- Witness for C8: absent override, hint `'stage'`, and a development
namespace: the hint wins over the deployment signal. -/
theorem resolveImsEnv_priority_witness :
    (truthyStr (none : Option String) = false
      ∧ truthyStr (some "stage") = true)
    ∧ resolveImsEnv none (some "stage") (some "development-x") = "stage" :=
  ⟨⟨rfl, by decide⟩,
    (resolveImsEnv_priority_order none (some "stage")
      (some "development-x")).2.1 rfl (by decide)⟩

/-- C9 counterexample: a call that fails credential validation never
reaches the cache-key derivation, so the caller's non-empty scopes
array stays untouched and unsorted: with no credentials and scopes
`['b','a']`, `generateAccessToken` rejects with `MissingParameters` and
the caller's array is still `['b','a']`, which is not sorted. -/
theorem caller_scopes_unsorted_on_validation_failure :
    (generateAccessToken (fun _ => Except.ok "tok")
        (mkParams none none none (.arr ["b", "a"])) (some "prod") none
        []).paramsAfter.scopes = .arr ["b", "a"]
    ∧ sortScopes ["b", "a"] ≠ ["b", "a"]
    ∧ (generateAccessToken (fun _ => Except.ok "tok")
        (mkParams none none none (.arr ["b", "a"])) (some "prod") none
        []).result
      = .error (.missingParameters ["clientId", "clientSecret", "orgId"]
          none none ["b", "a"]) :=
  ⟨by decide, by decide, by decide⟩

/-- C9 amended: after any `generateAccessToken` call whose credential
validation succeeds (even if the fetch then fails or the cache hits),
the caller's scopes array — aliased by the normalized record and sorted
in place by `getCacheKey` — has become the sorted array, while every
other field of the caller's input object is unchanged; calls that fail
validation leave the input untouched. -/
theorem caller_scopes_sorted_after_validated_call
    (fetch : CredAndEnv → Except AuthError Token) (p : Params)
    (imsEnv owNamespace : Option String) (cache : TokenCache)
    (creds : Credentials) (s : List String)
    (hval : getAndValidateCredentials p = .ok creds)
    (hs : p.scopes = .arr s) (hne : s ≠ []) :
    (generateAccessToken fetch p imsEnv owNamespace cache).paramsAfter
      = { p with scopes := .arr (sortScopes creds.scopes) }
    ∧ creds.scopes = s
    ∧ List.Sorted (fun a b => jsLe a b = true) (sortScopes creds.scopes) := by
  have hcs : creds.scopes = s := by
    simp only [getAndValidateCredentials, hs] at hval
    simp only [truthyScopes, JSScopes.isArr, Bool.and_self, Bool.true_and,
      Bool.not_true, Bool.and_false, Bool.false_eq_true, if_false] at hval
    by_cases hm : missingFields p = []
    · rw [if_pos hm] at hval
      have hc := Except.ok.inj hval
      rw [← hc]
      simp [normScopes]
    · rw [if_neg hm] at hval
      exact absurd hval (by simp)
  have hlen : 0 < creds.scopes.length := by
    rw [hcs]; exact List.length_pos.mpr hne
  have hsorted : scopesAfterCacheKey creds.scopes = sortScopes creds.scopes := by
    simp [scopesAfterCacheKey, hlen]
  refine ⟨?_, hcs, List.sorted_insertionSort _ _⟩
  have hp : (generateAccessToken fetch p imsEnv owNamespace cache).paramsAfter
      = { p with scopes := .arr (scopesAfterCacheKey creds.scopes) } := by
    cases hl : List.lookup (getCacheKey ⟨creds.clientId, creds.clientSecret,
        creds.orgId, creds.scopes, resolveEnvFromArg imsEnv owNamespace⟩)
        cache with
    | some t =>
      simp [generateAccessToken, hval, hl, hs, JSScopes.isArr]
    | none =>
      cases hf : fetch ⟨creds.clientId, creds.clientSecret, creds.orgId,
          scopesAfterCacheKey creds.scopes,
          resolveEnvFromArg imsEnv owNamespace⟩ <;>
        simp [generateAccessToken, hval, hl, hf, hs, JSScopes.isArr]
  rw [hp, hsorted]

/-- Witness for the amended C9: a valid call with scopes `['b','a']`
leaves the caller's array sorted to `['a','b']`. -/
theorem caller_scopes_sorted_witness :
    (getAndValidateCredentials
        (mkParams (some "c") (some "s") (some "o") (.arr ["b", "a"]))
      = .ok ⟨"c", "s", "o", ["b", "a"]⟩
      ∧ (["b", "a"] : List String) ≠ [])
    ∧ ((generateAccessToken (fun _ => Except.ok "tok")
          (mkParams (some "c") (some "s") (some "o") (.arr ["b", "a"]))
          (some "prod") none []).paramsAfter
        = { mkParams (some "c") (some "s") (some "o") (.arr ["b", "a"])
            with scopes := .arr (sortScopes ["b", "a"]) }
      ∧ (⟨"c", "s", "o", ["b", "a"]⟩ : Credentials).scopes = ["b", "a"]
      ∧ List.Sorted (fun a b => jsLe a b = true) (sortScopes ["b", "a"])) :=
  ⟨⟨validate_mkParams_arr (by decide) (by decide) (by decide), by decide⟩,
    caller_scopes_sorted_after_validated_call (fun _ => Except.ok "tok")
      (mkParams (some "c") (some "s") (some "o") (.arr ["b", "a"]))
      (some "prod") none [] ⟨"c", "s", "o", ["b", "a"]⟩ ["b", "a"]
      (validate_mkParams_arr (by decide) (by decide) (by decide)) rfl
      (by decide)⟩

end AioAuth
